import Mathlib

/-
Verification of the beta-calculator core (Veta.py / Eg.py).

The two scripts share the same computational core, modelled here over exact
rationals:

  pct_change   : stock_data["Daily Change (%)"] = stock_data["Close"].pct_change() * 100
  merge        : pd.merge(stock, index, on="Date")  (inner join, left row order)
  seriesCov    : intersection["Daily Change (%)_Stock"].cov(... _Index)   (pandas, ddof = 1)
  seriesVar    : intersection["Daily Change (%)_Index"].var()             (pandas, ddof = 1)
  beta         : round(covariance / variance, 2) if variance != 0 else None

Pandas floats are modelled as Option ℚ: none stands for NaN (the undefined
first-row percentage change, or a statistic computed from fewer than two
defined values).  A zero previous close, which pandas would turn into an
infinite or NaN change, is likewise mapped to none; no claim involves a zero
close.  Python None / NaN / finite float results of the beta expression are
the three constructors of BetaVal.  Only the Close column and the derived
Daily Change (%) column of the data frames are modelled; the remaining
price columns play no role in any claim except through row equality in
drop_duplicates, where equality of the modelled columns corresponds to rows
whose full column tuples coincide.
-/

/-- One row of a raw price frame: the Date index value and the Close column. -/
structure PricePoint where
  date : ℤ
  close : ℚ
deriving DecidableEq, Repr

/-- One row of a price frame after the Daily Change (%) column is added;
dailyChange = none models the NaN of the first row (or of an undefined change). -/
structure RetRow where
  date : ℤ
  close : ℚ
  dailyChange : Option ℚ
deriving DecidableEq, Repr

/-- One row of the merged intersection frame: Date, Close_Stock,
Daily Change (%)_Stock, Close_Index, Daily Change (%)_Index. -/
structure AlignedPair where
  date : ℤ
  close_Stock : ℚ
  dailyChange_Stock : Option ℚ
  close_Index : ℚ
  dailyChange_Index : Option ℚ
deriving DecidableEq, Repr

/-- Helper for pctChange: rows after the first, each compared with the
previous row of the same series. -/
def pctChangeGo : PricePoint → List PricePoint → List RetRow
  | _, [] => []
  | prev, p :: ps =>
      ⟨p.date, p.close,
        if prev.close = 0 then none
        else some ((p.close - prev.close) / prev.close * 100)⟩ :: pctChangeGo p ps

/-- df["Close"].pct_change() * 100, attached as the Daily Change (%) column:
the first row gets NaN, every later row gets the percentage change from the
immediately preceding row. -/
def pctChange : List PricePoint → List RetRow
  | [] => []
  | p :: ps => ⟨p.date, p.close, none⟩ :: pctChangeGo p ps

/-- pd.merge(stock, index, on="Date") with suffixes ("_Stock", "_Index"):
inner join on the Date column; output rows follow the left (stock) frame
row order, ties in the right frame in right-frame order. -/
def merge (stock index : List RetRow) : List AlignedPair :=
  stock.flatMap (fun s =>
    (index.filter (fun i => i.date == s.date)).map (fun i =>
      ⟨s.date, s.close, s.dailyChange, i.close, i.dailyChange⟩))

/-- The aligner of the spec: derive returns on each series, then join on Date. -/
def align (stock index : List PricePoint) : List AlignedPair :=
  merge (pctChange stock) (pctChange index)

/-- Arithmetic mean of a list of rationals (0 on the empty list, as x / 0 = 0). -/
def mean (l : List ℚ) : ℚ := l.sum / l.length

/-- Rows where both series carry a defined (non-NaN) value, as pandas
Series.cov drops pairs with a NaN on either side. -/
def validPairs (xs ys : List (Option ℚ)) : List (ℚ × ℚ) :=
  (xs.zip ys).filterMap (fun p => p.1.bind (fun a => p.2.map (fun b => (a, b))))

/-- Sum of products of deviations from the two column means. -/
def devProdSum (v : List (ℚ × ℚ)) : ℚ :=
  (v.map (fun p => (p.1 - mean (v.map Prod.fst)) * (p.2 - mean (v.map Prod.snd)))).sum

/-- pandas Series.cov (ddof = 1): drop pairs with a NaN on either side; NaN
(none) when fewer than two complete pairs remain, else the sample covariance. -/
def seriesCov (xs ys : List (Option ℚ)) : Option ℚ :=
  if (validPairs xs ys).length < 2 then none
  else some (devProdSum (validPairs xs ys) / (((validPairs xs ys).length : ℚ) - 1))

/-- pandas Series.var (ddof = 1): drop NaNs; NaN (none) when fewer than two
defined values remain, else the sample variance. -/
def seriesVar (xs : List (Option ℚ)) : Option ℚ :=
  if (xs.filterMap id).length < 2 then none
  else some (((xs.filterMap id).map (fun x => (x - mean (xs.filterMap id)) ^ 2)).sum /
    (((xs.filterMap id).length : ℚ) - 1))

/-- Round to the nearest integer, ties to even, as Python round does. -/
def roundHalfEven (q : ℚ) : ℤ :=
  if q - ⌊q⌋ < 1 / 2 then ⌊q⌋
  else if q - ⌊q⌋ > 1 / 2 then ⌊q⌋ + 1
  else if ⌊q⌋ % 2 = 0 then ⌊q⌋ else ⌊q⌋ + 1

/-- Python round(q, 2) modelled over exact rationals. -/
def round2 (q : ℚ) : ℚ := (roundHalfEven (q * 100) : ℚ) / 100

/-- Value of the Python expression round(covariance / variance, 2) if
variance != 0 else None: Python None, float NaN, or a finite float. -/
inductive BetaVal where
  | null : BetaVal
  | nan : BetaVal
  | val (q : ℚ) : BetaVal
deriving DecidableEq, Repr

/-- beta = round(covariance / variance, 2) if variance != 0 else None.
A NaN variance satisfies variance != 0 in Python, and NaN arithmetic
propagates, so a NaN covariance or variance yields a NaN beta, not None. -/
def beta (pairs : List AlignedPair) : BetaVal :=
  let covariance := seriesCov (pairs.map (·.dailyChange_Stock)) (pairs.map (·.dailyChange_Index))
  let variance := seriesVar (pairs.map (·.dailyChange_Index))
  if variance = some 0 then BetaVal.null
  else
    match covariance, variance with
    | some c, some v => BetaVal.val (round2 (c / v))
    | _, _ => BetaVal.nan

/-- Veta.py line 47: pd.concat([stock_data, index_data], axis=0)
.drop_duplicates(keep=False).  drop_duplicates compares column values only
(never the Date index) and treats NaNs as equal, so a row survives exactly
when its column tuple occurs once in the concatenation. -/
def vetaNonIntersection (s i : List RetRow) : List RetRow :=
  let rows := s ++ i
  rows.filter (fun r =>
    rows.countP (fun r2 => r2.close == r.close && r2.dailyChange == r.dailyChange) = 1)

/-- Eg.py lines 90-96: rows of each frame whose Date is not among the
intersection dates, put side by side (pd.concat axis=1) on the union of the
two remaining date indexes.  The row order of the union is not modelled;
each output entry carries the date and the Close of whichever sides have it. -/
def egNonIntersection (s i : List RetRow) : List (ℤ × Option ℚ × Option ℚ) :=
  let interDates := (merge s i).map (·.date)
  let sni := s.filter (fun r => !(interDates.contains r.date))
  let ini := i.filter (fun r => !(interDates.contains r.date))
  ((sni.map (·.date)) ++ (ini.map (·.date))).dedup.map (fun d =>
    (d, (sni.find? (fun r => r.date == d)).map (·.close),
        (ini.find? (fun r => r.date == d)).map (·.close)))

/-- Veta.py line 148: sum(d["Beta"] for d in beta_summary if d["Beta"] is not
None) / len(beta_summary).  None entries are dropped from the sum but the
divisor is the total number of summary rows; a NaN beta makes the sum NaN;
an empty summary raises ZeroDivisionError, modelled as the outer none. -/
def vetaAverageBeta (beta_summary : List BetaVal) : Option (Option ℚ) :=
  if beta_summary.length = 0 then none
  else
    let kept := beta_summary.filterMap (fun b =>
      match b with
      | BetaVal.null => none
      | BetaVal.nan => some none
      | BetaVal.val q => some (some q))
    some ((kept.foldl (fun acc x =>
      match acc, x with
      | some a, some b => some (a + b)
      | _, _ => none) (some 0)).map (fun s => s / (beta_summary.length : ℚ)))

/-- Eg.py line 159: beta_df["Beta"].mean().  pandas mean skips None/NaN
entries and divides by the count of the remaining ones; NaN (none) when no
finite value remains. -/
def egAverageBeta (beta_summary : List BetaVal) : Option ℚ :=
  let v := beta_summary.filterMap (fun b =>
    match b with
    | BetaVal.val q => some q
    | _ => none)
  if v.length = 0 then none else some (v.sum / (v.length : ℚ))

/-- Per-symbol output stored in stock_data_dict for one stock symbol. -/
structure SymbolData where
  intersection : List AlignedPair
  non_intersection : List RetRow
  beta : BetaVal
deriving DecidableEq, Repr

/-- The Fetch Data loop (Veta.py lines 32-59): for each requested symbol
download both series; only when both are non-empty compute the intersection,
the non-intersection and beta and append an entry to stock_data_dict and to
beta_summary; otherwise fall through to the next symbol.  The retrieval
collaborator is the injected function fetch. -/
def fetchData (fetch : String → List PricePoint) (indexSymbol : String) :
    List String → List (String × SymbolData) × List (String × BetaVal)
  | [] => ([], [])
  | stockSymbol :: rest =>
      let stock_data := fetch stockSymbol
      let index_data := fetch indexSymbol
      if stock_data = [] ∨ index_data = [] then fetchData fetch indexSymbol rest
      else
        let s := pctChange stock_data
        let i := pctChange index_data
        let intersection := merge s i
        let res := fetchData fetch indexSymbol rest
        ((stockSymbol, ⟨intersection, vetaNonIntersection s i, beta intersection⟩) :: res.1,
         (stockSymbol, beta intersection) :: res.2)

/-- Sample covariance written the way the spec words it: sum of products of
deviations from the means over the paired values, divided by n - 1. -/
def specSampleCov (xs ys : List ℚ) : ℚ :=
  ((xs.zip ys).map (fun p => (p.1 - mean xs) * (p.2 - mean ys))).sum / ((xs.length : ℚ) - 1)

/-- Sample variance written the way the spec words it: sum of squared
deviations from the mean, divided by n - 1. -/
def specSampleVar (l : List ℚ) : ℚ :=
  (l.map (fun x => (x - mean l) ^ 2)).sum / ((l.length : ℚ) - 1)

-- Concrete series used by counterexamples and witnesses.

/-- Two-day stock series sharing both dates with the index series below. -/
def c1stock : List PricePoint := [⟨1, 100⟩, ⟨2, 102⟩]

/-- Two-day index series sharing both dates with the stock series above. -/
def c1index : List PricePoint := [⟨1, 1000⟩, ⟨2, 1010⟩]

/-- Security closes of the end-to-end example of the spec. -/
def ex4stock : List PricePoint := [⟨1, 100⟩, ⟨2, 102⟩, ⟨3, 101⟩, ⟨4, 105⟩]

/-- Benchmark closes of the end-to-end example of the spec. -/
def ex4index : List PricePoint := [⟨1, 1000⟩, ⟨2, 1010⟩, ⟨3, 1005⟩, ⟨4, 1015⟩]

/-- Multiply every security daily change of the intersection by k. -/
def scaleStock (k : ℚ) (ps : List AlignedPair) : List AlignedPair :=
  ps.map (fun p => { p with dailyChange_Stock := p.dailyChange_Stock.map (fun r => k * r) })

/-- Multiply every benchmark daily change of the intersection by k. -/
def scaleIndex (k : ℚ) (ps : List AlignedPair) : List AlignedPair :=
  ps.map (fun p => { p with dailyChange_Index := p.dailyChange_Index.map (fun r => k * r) })

/-- Aligned pairs with embedded returns 0 and 1/250 against 0 and 1. -/
def c7pairs : List AlignedPair :=
  [⟨1, 1, some 0, 1, some 0⟩, ⟨2, 1, some (1 / 250), 1, some 1⟩]

/-- Aligned pairs used to witness the sample-convention theorem. -/
def c2pairs : List AlignedPair :=
  [⟨1, 1, some 1, 1, some 1⟩, ⟨2, 1, some 2, 1, some 3⟩]

/-- Retrieval stub: no data for symbol B, a two-day series for every other
symbol. -/
def exFetch : String → List PricePoint :=
  fun s => if s = "B" then [] else [⟨1, 100⟩, ⟨2, 102⟩]

-- Helper lemmas.

/-- Evaluation of roundHalfEven when the argument sits strictly below the
midpoint above n. -/
theorem roundHalfEven_of_lt (q : ℚ) (n : ℤ) (h1 : (n : ℚ) ≤ q) (h2 : q - n < 1 / 2) :
    roundHalfEven q = n := by
  have hf : ⌊q⌋ = n := Int.floor_eq_iff.mpr ⟨h1, by linarith⟩
  unfold roundHalfEven
  rw [hf, if_pos h2]

/-- Evaluation of roundHalfEven when the argument sits strictly above the
midpoint below n + 1. -/
theorem roundHalfEven_of_gt (q : ℚ) (n : ℤ) (h1 : 1 / 2 < q - n) (h2 : q < n + 1) :
    roundHalfEven q = n + 1 := by
  have h1' : (n : ℚ) ≤ q := by linarith
  have hf : ⌊q⌋ = n := Int.floor_eq_iff.mpr ⟨h1', by linarith⟩
  unfold roundHalfEven
  rw [hf, if_neg (by linarith), if_pos h1]

/-- Evaluation of round2 through a concrete lower rounding. -/
theorem round2_down (q : ℚ) (n : ℤ) (h1 : (n : ℚ) ≤ q * 100) (h2 : q * 100 - n < 1 / 2) :
    round2 q = (n : ℚ) / 100 := by
  unfold round2
  rw [roundHalfEven_of_lt _ _ h1 h2]

/-- The beta expression takes the value branch exactly when both statistics
are finite and the variance is nonzero. -/
theorem beta_eq_val (pairs : List AlignedPair) (c v : ℚ)
    (hc : seriesCov (pairs.map (·.dailyChange_Stock)) (pairs.map (·.dailyChange_Index)) = some c)
    (hv : seriesVar (pairs.map (·.dailyChange_Index)) = some v) (hv0 : v ≠ 0) :
    beta pairs = BetaVal.val (round2 (c / v)) := by
  unfold beta
  rw [hc, hv]
  simp [hv0]

/-- Deriving returns changes no date (rows after the first). -/
theorem pctChangeGo_map_date (prev : PricePoint) (l : List PricePoint) :
    (pctChangeGo prev l).map (·.date) = l.map (·.date) := by
  induction l generalizing prev with
  | nil => rfl
  | cons p ps ih => simp [pctChangeGo, ih]

/-- Deriving returns changes no date. -/
theorem pctChange_map_date (l : List PricePoint) :
    (pctChange l).map (·.date) = l.map (·.date) := by
  cases l with
  | nil => rfl
  | cons p ps => simp [pctChange, pctChangeGo_map_date]

/-- A date occurs in the merged frame exactly when it occurs in both input
frames. -/
theorem mem_merge_dates (s i : List RetRow) (d : ℤ) :
    d ∈ (merge s i).map (·.date) ↔ d ∈ s.map (·.date) ∧ d ∈ i.map (·.date) := by
  induction s with
  | nil => simp [merge]
  | cons x s ih =>
      simp only [merge, List.flatMap_cons, List.map_append, List.mem_append, List.map_cons,
        List.mem_cons] at ih ⊢
      rw [ih]
      simp only [List.map_map, List.mem_map, Function.comp, List.mem_filter, beq_iff_eq]
      constructor
      · rintro (⟨r, ⟨hr, hrd⟩, hd⟩ | ⟨hs, hi⟩)
        · exact ⟨Or.inl hd.symm, ⟨r, hr, by rw [hrd, ← hd]⟩⟩
        · exact ⟨Or.inr hs, hi⟩
      · rintro ⟨hx | hs, ⟨r, hr, hrd⟩⟩
        · exact Or.inl ⟨r, ⟨hr, by rw [hrd, hx]⟩, hx.symm⟩
        · exact Or.inr ⟨hs, ⟨r, hr, hrd⟩⟩

-- Theorems settling the claims start here.

/-- C1 amended: for every pair of non-empty price series, a date occurs in
the AlignedPair output exactly when it occurs in both input series; dates
without a defined return, in particular each series earliest date, are NOT
excluded (they appear with a NaN return). -/
theorem c1_align_dates_intersection (stock index : List PricePoint) (d : ℤ)
    (_hs : stock ≠ []) (_hi : index ≠ []) :
    d ∈ (align stock index).map (·.date) ↔
      d ∈ stock.map (·.date) ∧ d ∈ index.map (·.date) := by
  unfold align
  rw [mem_merge_dates, pctChange_map_date, pctChange_map_date]

/-- C1 witness: the amended theorem applied to the concrete two-day series. -/
theorem c1_witness : (2 : ℤ) ∈ (align c1stock c1index).map (·.date) :=
  (c1_align_dates_intersection c1stock c1index 2 (by decide) (by decide)).mpr
    ⟨by decide, by decide⟩

/-- pandas Series.var agrees with the spec sample variance over the defined
values, and is NaN when fewer than two values are defined. -/
theorem seriesVar_eq_spec (xs : List (Option ℚ)) :
    seriesVar xs = if (xs.filterMap id).length < 2 then none
      else some (specSampleVar (xs.filterMap id)) := rfl

/-- pandas Series.cov agrees with the spec sample covariance over the
pairwise-defined values, and is NaN when fewer than two pairs are defined. -/
theorem seriesCov_eq_spec (xs ys : List (Option ℚ)) :
    seriesCov xs ys = if (validPairs xs ys).length < 2 then none
      else some (specSampleCov ((validPairs xs ys).map Prod.fst)
        ((validPairs xs ys).map Prod.snd)) := by
  unfold seriesCov specSampleCov devProdSum
  rw [show ((validPairs xs ys).map Prod.fst).zip ((validPairs xs ys).map Prod.snd) =
    validPairs xs ys from (List.zip_of_prod rfl rfl).symm, List.length_map]

/-- A NaN benchmark variance propagates to a NaN beta: NaN != 0 holds in
Python, and the division and rounding of a NaN give NaN. -/
theorem beta_of_var_none (pairs : List AlignedPair)
    (hv : seriesVar (pairs.map (·.dailyChange_Index)) = none) :
    beta pairs = BetaVal.nan := by
  unfold beta
  rw [hv, if_neg (by simp)]
  rcases hc : seriesCov (pairs.map (·.dailyChange_Stock))
    (pairs.map (·.dailyChange_Index)) with _ | c <;> rw [hc]

/-- A benchmark variance of exactly zero yields a None beta. -/
theorem beta_of_var_zero (pairs : List AlignedPair)
    (hv : seriesVar (pairs.map (·.dailyChange_Index)) = some 0) :
    beta pairs = BetaVal.null := by
  unfold beta
  rw [hv, if_pos rfl]

/-- With a defined nonzero benchmark variance the beta is never None. -/
theorem beta_ne_null (pairs : List AlignedPair) (v : ℚ)
    (hv : seriesVar (pairs.map (·.dailyChange_Index)) = some v) (h0 : v ≠ 0) :
    beta pairs ≠ BetaVal.null := by
  unfold beta
  rw [hv, if_neg (by simpa using h0)]
  rcases hc : seriesCov (pairs.map (·.dailyChange_Stock))
    (pairs.map (·.dailyChange_Index)) with _ | c <;> rw [hc] <;> simp

/-- C2: whenever at least two pairwise-defined return pairs and at least two
defined benchmark returns exist and the sample variance of the latter is
nonzero, the computed beta is exactly the sample (n-1 denominator)
covariance divided by the sample variance, rounded to 2 decimal places. -/
theorem c2_beta_sample_convention (pairs : List AlignedPair)
    (h2 : 2 ≤ (validPairs (pairs.map (·.dailyChange_Stock))
      (pairs.map (·.dailyChange_Index))).length)
    (h3 : 2 ≤ ((pairs.map (·.dailyChange_Index)).filterMap id).length)
    (h4 : specSampleVar ((pairs.map (·.dailyChange_Index)).filterMap id) ≠ 0) :
    beta pairs = BetaVal.val (round2
      (specSampleCov
        ((validPairs (pairs.map (·.dailyChange_Stock))
          (pairs.map (·.dailyChange_Index))).map Prod.fst)
        ((validPairs (pairs.map (·.dailyChange_Stock))
          (pairs.map (·.dailyChange_Index))).map Prod.snd) /
        specSampleVar ((pairs.map (·.dailyChange_Index)).filterMap id))) := by
  apply beta_eq_val
  · rw [seriesCov_eq_spec, if_neg (not_lt.mpr h2)]
  · rw [seriesVar_eq_spec, if_neg (not_lt.mpr h3)]
  · exact h4

/-- C2 witness: the sample-convention theorem applied to a concrete pair of
embedded return columns. -/
theorem c2_witness :
    beta c2pairs = BetaVal.val (round2
      (specSampleCov
        ((validPairs (c2pairs.map (·.dailyChange_Stock))
          (c2pairs.map (·.dailyChange_Index))).map Prod.fst)
        ((validPairs (c2pairs.map (·.dailyChange_Stock))
          (c2pairs.map (·.dailyChange_Index))).map Prod.snd) /
        specSampleVar ((c2pairs.map (·.dailyChange_Index)).filterMap id))) :=
  c2_beta_sample_convention c2pairs (by decide) (by decide)
    (by norm_num [c2pairs, specSampleVar, mean, List.filterMap_cons])

/-- C3 amended: beta is None exactly when the benchmark variance is defined
(at least two defined benchmark returns) and exactly zero; on fewer than two
aligned rows the variance is NaN, which Python treats as different from 0,
so beta is NaN rather than None (still no exception). -/
theorem c3_null_iff_zero_variance (pairs : List AlignedPair) :
    (beta pairs = BetaVal.null ↔
      2 ≤ ((pairs.map (·.dailyChange_Index)).filterMap id).length ∧
        specSampleVar ((pairs.map (·.dailyChange_Index)).filterMap id) = 0) ∧
      (pairs.length ≤ 1 → beta pairs = BetaVal.nan) := by
  constructor
  · by_cases hlen : ((pairs.map (·.dailyChange_Index)).filterMap id).length < 2
    · have hv : seriesVar (pairs.map (·.dailyChange_Index)) = none := by
        rw [seriesVar_eq_spec, if_pos hlen]
      rw [beta_of_var_none pairs hv]
      exact iff_of_false (by simp) (fun h => absurd h.1 (by omega))
    · have hv : seriesVar (pairs.map (·.dailyChange_Index)) =
          some (specSampleVar ((pairs.map (·.dailyChange_Index)).filterMap id)) := by
        rw [seriesVar_eq_spec, if_neg hlen]
      by_cases h0 : specSampleVar ((pairs.map (·.dailyChange_Index)).filterMap id) = 0
      · rw [beta_of_var_zero pairs (by rw [hv, h0])]
        exact iff_of_true rfl ⟨not_lt.mp hlen, h0⟩
      · exact iff_of_false (beta_ne_null pairs _ hv h0) (fun h => h0 h.2)
  · intro hlen1
    have hdlen : ((pairs.map (·.dailyChange_Index)).filterMap id).length < 2 :=
      lt_of_le_of_lt (le_trans (List.length_filterMap_le _ _)
        (by rw [List.length_map])) (by omega)
    exact beta_of_var_none pairs (by rw [seriesVar_eq_spec, if_pos hdlen])

/-- C3 witness: a single aligned row gives a NaN beta. -/
theorem c3_witness :
    beta [⟨1, 1, some 1, 1, some 1⟩] = BetaVal.nan :=
  (c3_null_iff_zero_variance [⟨1, 1, some 1, 1, some 1⟩]).2 (by decide)

/-- C6 amended: on non-empty series with disjoint date sets the aligned
output is empty, and in the date-difference variant (Eg.py) every date of
either input appears in the unaligned output; the concat-and-deduplicate
variant (Veta.py) can instead drop such dates, see the counterexample. -/
theorem c6_disjoint_dates (stock index : List PricePoint)
    (_hs : stock ≠ []) (_hi : index ≠ [])
    (hdisj : ∀ d, d ∈ stock.map (·.date) → d ∉ index.map (·.date)) :
    align stock index = [] ∧
      ∀ d, d ∈ stock.map (·.date) ∨ d ∈ index.map (·.date) →
        d ∈ (egNonIntersection (pctChange stock) (pctChange index)).map (·.1) := by
  have hnil : merge (pctChange stock) (pctChange index) = [] := by
    rw [List.eq_nil_iff_forall_not_mem]
    intro p hp
    have hdm : p.date ∈ (merge (pctChange stock) (pctChange index)).map (·.date) :=
      List.mem_map_of_mem _ hp
    rw [mem_merge_dates, pctChange_map_date, pctChange_map_date] at hdm
    exact hdisj p.date hdm.1 hdm.2
  refine ⟨hnil, ?_⟩
  intro d hd
  unfold egNonIntersection
  rw [hnil]
  simp only [List.map_nil, List.map_map]
  simp [Function.comp, List.mem_dedup, pctChange_map_date]
  rcases hd with h | h
  · exact Or.inl (by simpa [pctChange_map_date] using h)
  · exact Or.inr (by simpa [pctChange_map_date] using h)

/-- C6 witness: the amended theorem applied to one-day series on disjoint
dates. -/
theorem c6_witness :
    align [⟨1, 5⟩] [⟨2, 7⟩] = [] ∧
      (1 : ℤ) ∈ (egNonIntersection (pctChange [⟨1, 5⟩]) (pctChange [⟨2, 7⟩])).map (·.1) := by
  have h := c6_disjoint_dates [⟨1, 5⟩] [⟨2, 7⟩] (by decide) (by decide)
    (by intro d hd; simp at hd ⊢; omega)
  exact ⟨h.1, h.2 1 (Or.inl (by decide))⟩

/-- A frame with pairwise-distinct dates holds at most one row for a date. -/
theorem filter_date_length_le_one (i : List RetRow) (d : ℤ)
    (h : (i.map (·.date)).Nodup) :
    (i.filter (fun r => r.date == d)).length ≤ 1 := by
  induction i with
  | nil => simp
  | cons y ys ih =>
      simp only [List.map_cons, List.nodup_cons] at h
      by_cases hy : y.date = d
      · have hrest : ys.filter (fun r => r.date == d) = [] := by
          rw [List.filter_eq_nil_iff]
          intro r hr
          simp only [beq_iff_eq]
          intro hrd
          apply h.1
          have hyr : y.date = r.date := by rw [hy, hrd]
          rw [hyr]
          exact List.mem_map_of_mem (·.date) hr
        simp [List.filter_cons, hy, hrest]
      · simpa [List.filter_cons, hy] using ih h.2

/-- Unfolding the merge of a non-empty left frame. -/
theorem merge_cons (x : RetRow) (s i : List RetRow) :
    merge (x :: s) i = (i.filter (fun r => r.date == x.date)).map
      (fun r => ⟨x.date, x.close, x.dailyChange, r.close, r.dailyChange⟩) ++ merge s i := rfl

/-- When the right frame has pairwise-distinct dates, the merged dates form
a sublist of the left frame dates. -/
theorem merge_dates_sublist (s i : List RetRow) (h : (i.map (·.date)).Nodup) :
    ((merge s i).map (·.date)).Sublist (s.map (·.date)) := by
  induction s with
  | nil => simp [merge]
  | cons x xs ih =>
      rw [merge_cons, List.map_append, List.map_cons]
      have hble := filter_date_length_le_one i x.date h
      cases hfe : i.filter (fun r => r.date == x.date) with
      | nil =>
          simp only [List.map_nil, List.nil_append]
          exact List.Sublist.cons x.date ih
      | cons a t =>
          have ht : t = [] := by
            rw [hfe] at hble
            simpa using hble
          subst ht
          simp only [List.map_cons, List.map_nil, List.singleton_append]
          exact List.Sublist.cons₂ x.date ih

/-- C8 amended: when each input series is strictly ascending by date (the
order the retrieval collaborator returns), the AlignedPair output is
strictly ascending by date, hence duplicate-free; for unsorted input the
output instead follows the security series row order, see the
counterexample. -/
theorem c8_sorted_inputs_sorted_output (stock index : List PricePoint)
    (hs : List.Pairwise (· < ·) (stock.map (·.date)))
    (hi : List.Pairwise (· < ·) (index.map (·.date))) :
    List.Pairwise (· < ·) ((align stock index).map (·.date)) := by
  have hnodup : ((pctChange index).map (·.date)).Nodup := by
    rw [pctChange_map_date]
    exact hi.imp (fun hlt => ne_of_lt hlt)
  have hsub := merge_dates_sublist (pctChange stock) (pctChange index) hnodup
  rw [pctChange_map_date] at hsub
  exact List.Pairwise.sublist hsub hs

/-- C8 witness: the amended theorem applied to two ascending two-day series. -/
theorem c8_witness :
    List.Pairwise (· < ·)
      ((align [⟨1, 1⟩, ⟨2, 2⟩] [⟨1, 1⟩, ⟨2, 3⟩]).map (·.date)) :=
  c8_sorted_inputs_sorted_output [⟨1, 1⟩, ⟨2, 2⟩] [⟨1, 1⟩, ⟨2, 3⟩]
    (by decide) (by decide)

/-- The beta summary never holds more entries than requested symbols. -/
theorem fetchData_length_le (fetch : String → List PricePoint) (indexSymbol : String)
    (syms : List String) :
    (fetchData fetch indexSymbol syms).2.length ≤ syms.length := by
  induction syms with
  | nil => simp [fetchData]
  | cons a t ih =>
      simp only [fetchData]
      split
      · exact le_trans ih (Nat.le_succ _)
      · simpa using ih

/-- C9: a symbol whose own series or whose benchmark series is empty
contributes nothing, and the batch result is exactly the result of the
batch without that symbol: no exception, remaining symbols unaffected. -/
theorem c9_empty_series_skipped (fetch : String → List PricePoint)
    (indexSymbol sym : String) (l1 l2 : List String)
    (h : fetch sym = [] ∨ fetch indexSymbol = []) :
    fetchData fetch indexSymbol (l1 ++ sym :: l2) = fetchData fetch indexSymbol (l1 ++ l2) := by
  induction l1 with
  | nil =>
      show fetchData fetch indexSymbol (sym :: l2) = _
      rw [fetchData, if_pos h]
      rfl
  | cons a t ih =>
      show fetchData fetch indexSymbol (a :: (t ++ sym :: l2)) =
        fetchData fetch indexSymbol (a :: (t ++ l2))
      rw [fetchData, fetchData, ih]

/-- C9 witness: with symbol B empty, the two-symbol batch equals the
one-symbol batch. -/
theorem c9_witness :
    fetchData exFetch "I" ["A", "B"] = fetchData exFetch "I" ["A"] :=
  c9_empty_series_skipped exFetch "I" "B" ["A"] [] (Or.inl (by decide))

/-- C10: a requested symbol with an empty own or benchmark series is absent
from the per-symbol collection and from the beta summary, and when it was
requested the summary is strictly shorter than the request list. -/
theorem c10_absent_from_outputs (fetch : String → List PricePoint)
    (indexSymbol sym : String) (syms : List String)
    (h : fetch sym = [] ∨ fetch indexSymbol = []) :
    sym ∉ (fetchData fetch indexSymbol syms).1.map Prod.fst ∧
      sym ∉ (fetchData fetch indexSymbol syms).2.map Prod.fst ∧
      (sym ∈ syms → (fetchData fetch indexSymbol syms).2.length < syms.length) := by
  induction syms with
  | nil => simp [fetchData]
  | cons a t ih =>
      obtain ⟨ih1, ih2, ih3⟩ := ih
      by_cases hskip : fetch a = [] ∨ fetch indexSymbol = []
      · rw [fetchData, if_pos hskip]
        refine ⟨ih1, ih2, fun _ => ?_⟩
        exact Nat.lt_succ_of_le (fetchData_length_le fetch indexSymbol t)
      · rw [fetchData, if_neg hskip]
        push_neg at hskip
        have hsym : fetch sym = [] := h.resolve_right hskip.2
        have hne : sym ≠ a := fun he => hskip.1 (he ▸ hsym)
        simp only [List.map_cons, List.mem_cons, not_or, List.length_cons]
        refine ⟨⟨hne, ih1⟩, ⟨hne, ih2⟩, fun hmem => ?_⟩
        exact Nat.succ_lt_succ (ih3 (hmem.resolve_left hne))

/-- C10 witness: symbol B, whose series is empty, is absent from the beta
summary of the two-symbol batch. -/
theorem c10_witness :
    "B" ∉ (fetchData exFetch "I" ["A", "B"]).2.map Prod.fst :=
  (c10_absent_from_outputs exFetch "I" "B" ["A", "B"] (Or.inl (by decide))).2.1

/-- Multiplying through a map distributes over a list sum. -/
theorem sum_map_mul {α : Type} (k : ℚ) (g : α → ℚ) (l : List α) :
    (l.map (fun a => k * g a)).sum = k * (l.map g).sum := by
  induction l with
  | nil => simp
  | cons a t ih => simp [ih, mul_add]

/-- The mean scales with a common factor. -/
theorem mean_map_mul (k : ℚ) (l : List ℚ) :
    mean (l.map (fun x => k * x)) = k * mean l := by
  unfold mean
  rw [List.length_map, show (l.map (fun x => k * x)).sum = k * l.sum from by
    simpa using sum_map_mul k id l]
  ring

/-- validPairs on an empty left column. -/
theorem validPairs_nil_left (ys : List (Option ℚ)) : validPairs [] ys = [] := rfl

/-- validPairs on an empty right column. -/
theorem validPairs_nil_right (xs : List (Option ℚ)) : validPairs xs [] = [] := by
  cases xs <;> rfl

/-- A NaN in the left column drops the pair. -/
theorem validPairs_cons_none_left (y : Option ℚ) (xs ys : List (Option ℚ)) :
    validPairs (none :: xs) (y :: ys) = validPairs xs ys := rfl

/-- A NaN in the right column drops the pair. -/
theorem validPairs_cons_none_right (a : ℚ) (xs ys : List (Option ℚ)) :
    validPairs (some a :: xs) (none :: ys) = validPairs xs ys := rfl

/-- Two defined heads form a valid pair. -/
theorem validPairs_cons_some (a b : ℚ) (xs ys : List (Option ℚ)) :
    validPairs (some a :: xs) (some b :: ys) = (a, b) :: validPairs xs ys := rfl

/-- Scaling the left column scales the first component of each valid pair. -/
theorem validPairs_map_left (f : ℚ → ℚ) (xs ys : List (Option ℚ)) :
    validPairs (xs.map (Option.map f)) ys =
      (validPairs xs ys).map (fun p => (f p.1, p.2)) := by
  induction xs generalizing ys with
  | nil => simp [validPairs_nil_left]
  | cons x xs ih =>
      cases ys with
      | nil => simp [validPairs_nil_right]
      | cons y ys =>
          rw [List.map_cons]
          cases x <;> cases y <;>
            simp [validPairs_cons_none_left, validPairs_cons_none_right,
              validPairs_cons_some, ih ys]

/-- Scaling the right column scales the second component of each valid pair. -/
theorem validPairs_map_right (f : ℚ → ℚ) (xs ys : List (Option ℚ)) :
    validPairs xs (ys.map (Option.map f)) =
      (validPairs xs ys).map (fun p => (p.1, f p.2)) := by
  induction xs generalizing ys with
  | nil => simp [validPairs_nil_left]
  | cons x xs ih =>
      cases ys with
      | nil => simp [validPairs_nil_right]
      | cons y ys =>
          rw [List.map_cons]
          cases x <;> cases y <;>
            simp [validPairs_cons_none_left, validPairs_cons_none_right,
              validPairs_cons_some, ih ys]

/-- Dropping NaNs commutes with mapping a total function over the column. -/
theorem filterMap_id_map_optionMap (f : ℚ → ℚ) (ys : List (Option ℚ)) :
    (ys.map (Option.map f)).filterMap id = (ys.filterMap id).map f := by
  induction ys with
  | nil => rfl
  | cons y t ih => cases y <;> simp [ih]

/-- The deviation-product sum scales linearly in the first components. -/
theorem devProdSum_map_left (k : ℚ) (v : List (ℚ × ℚ)) :
    devProdSum (v.map (fun p => (k * p.1, p.2))) = k * devProdSum v := by
  unfold devProdSum
  have hA : List.map Prod.fst (v.map (fun p => (k * p.1, p.2))) =
      (v.map Prod.fst).map (fun x => k * x) := by
    rw [List.map_map, List.map_map]
    rfl
  have hB : List.map Prod.snd (v.map (fun p => (k * p.1, p.2))) = v.map Prod.snd := by
    rw [List.map_map]
    rfl
  rw [hA, hB, mean_map_mul, List.map_map]
  have hfun : ((fun p : ℚ × ℚ =>
      (p.1 - k * mean (v.map Prod.fst)) * (p.2 - mean (v.map Prod.snd))) ∘
        (fun p : ℚ × ℚ => (k * p.1, p.2))) =
      fun p : ℚ × ℚ =>
        k * ((p.1 - mean (v.map Prod.fst)) * (p.2 - mean (v.map Prod.snd))) := by
    funext p
    simp only [Function.comp]
    ring
  rw [hfun, sum_map_mul]

/-- The deviation-product sum scales linearly in the second components. -/
theorem devProdSum_map_right (k : ℚ) (v : List (ℚ × ℚ)) :
    devProdSum (v.map (fun p => (p.1, k * p.2))) = k * devProdSum v := by
  unfold devProdSum
  have hA : List.map Prod.fst (v.map (fun p => (p.1, k * p.2))) = v.map Prod.fst := by
    rw [List.map_map]
    rfl
  have hB : List.map Prod.snd (v.map (fun p => (p.1, k * p.2))) =
      (v.map Prod.snd).map (fun x => k * x) := by
    rw [List.map_map, List.map_map]
    rfl
  rw [hA, hB, mean_map_mul, List.map_map]
  have hfun : ((fun p : ℚ × ℚ =>
      (p.1 - mean (v.map Prod.fst)) * (p.2 - k * mean (v.map Prod.snd))) ∘
        (fun p : ℚ × ℚ => (p.1, k * p.2))) =
      fun p : ℚ × ℚ =>
        k * ((p.1 - mean (v.map Prod.fst)) * (p.2 - mean (v.map Prod.snd))) := by
    funext p
    simp only [Function.comp]
    ring
  rw [hfun, sum_map_mul]

/-- pandas covariance scales linearly when the left column is scaled. -/
theorem seriesCov_map_left (k : ℚ) (xs ys : List (Option ℚ)) :
    seriesCov (xs.map (Option.map (fun r => k * r))) ys =
      (seriesCov xs ys).map (fun c => k * c) := by
  unfold seriesCov
  rw [validPairs_map_left, List.length_map]
  by_cases hc : (validPairs xs ys).length < 2
  · rw [if_pos hc, if_pos hc]
    rfl
  · rw [if_neg hc, if_neg hc, devProdSum_map_left, Option.map_some', mul_div_assoc]

/-- pandas covariance scales linearly when the right column is scaled. -/
theorem seriesCov_map_right (k : ℚ) (xs ys : List (Option ℚ)) :
    seriesCov xs (ys.map (Option.map (fun r => k * r))) =
      (seriesCov xs ys).map (fun c => k * c) := by
  unfold seriesCov
  rw [validPairs_map_right, List.length_map]
  by_cases hc : (validPairs xs ys).length < 2
  · rw [if_pos hc, if_pos hc]
    rfl
  · rw [if_neg hc, if_neg hc, devProdSum_map_right, Option.map_some', mul_div_assoc]

/-- pandas variance scales quadratically when the column is scaled. -/
theorem seriesVar_map_mul (k : ℚ) (ys : List (Option ℚ)) :
    seriesVar (ys.map (Option.map (fun r => k * r))) =
      (seriesVar ys).map (fun v => k ^ 2 * v) := by
  unfold seriesVar
  rw [filterMap_id_map_optionMap, List.length_map]
  by_cases hc : (ys.filterMap id).length < 2
  · rw [if_pos hc, if_pos hc]
    rfl
  · rw [if_neg hc, if_neg hc, Option.map_some', mean_map_mul, List.map_map]
    have hfun : ((fun x => (x - k * mean (ys.filterMap id)) ^ 2) ∘ (fun x => k * x)) =
        fun x => k ^ 2 * ((x - mean (ys.filterMap id)) ^ 2) := by
      funext x
      simp only [Function.comp]
      ring
    rw [hfun, sum_map_mul, mul_div_assoc]

/-- Scaling the security returns rewrites the stock column. -/
theorem scaleStock_map_stock (k : ℚ) (ps : List AlignedPair) :
    (scaleStock k ps).map (·.dailyChange_Stock) =
      (ps.map (·.dailyChange_Stock)).map (Option.map (fun r => k * r)) := by
  unfold scaleStock
  rw [List.map_map, List.map_map]
  rfl

/-- Scaling the security returns leaves the benchmark column unchanged. -/
theorem scaleStock_map_index (k : ℚ) (ps : List AlignedPair) :
    (scaleStock k ps).map (·.dailyChange_Index) = ps.map (·.dailyChange_Index) := by
  unfold scaleStock
  rw [List.map_map]
  rfl

/-- Scaling the benchmark returns leaves the stock column unchanged. -/
theorem scaleIndex_map_stock (k : ℚ) (ps : List AlignedPair) :
    (scaleIndex k ps).map (·.dailyChange_Stock) = ps.map (·.dailyChange_Stock) := by
  unfold scaleIndex
  rw [List.map_map]
  rfl

/-- Scaling the benchmark returns rewrites the benchmark column. -/
theorem scaleIndex_map_index (k : ℚ) (ps : List AlignedPair) :
    (scaleIndex k ps).map (·.dailyChange_Index) =
      (ps.map (·.dailyChange_Index)).map (Option.map (fun r => k * r)) := by
  unfold scaleIndex
  rw [List.map_map, List.map_map]
  rfl

/-- C7 amended: the scaling law holds for the unrounded ratio
covariance / variance: scaling the security returns by k > 0 multiplies
covariance, hence the ratio, by k; scaling the benchmark returns by k
multiplies covariance by k and variance by k squared, dividing the ratio by
k.  The reported beta applies round2 to the ratio, and rounding breaks the
exact identity, see the counterexample. -/
theorem c7_scaling_unrounded (ps : List AlignedPair) (k c v : ℚ) (hk : 0 < k)
    (hc : seriesCov (ps.map (·.dailyChange_Stock)) (ps.map (·.dailyChange_Index)) = some c)
    (hv : seriesVar (ps.map (·.dailyChange_Index)) = some v) (hv0 : v ≠ 0) :
    (seriesCov ((scaleStock k ps).map (·.dailyChange_Stock))
        ((scaleStock k ps).map (·.dailyChange_Index)) = some (k * c) ∧
      seriesVar ((scaleStock k ps).map (·.dailyChange_Index)) = some v ∧
      (k * c) / v = k * (c / v)) ∧
    (seriesCov ((scaleIndex k ps).map (·.dailyChange_Stock))
        ((scaleIndex k ps).map (·.dailyChange_Index)) = some (k * c) ∧
      seriesVar ((scaleIndex k ps).map (·.dailyChange_Index)) = some (k ^ 2 * v) ∧
      (k * c) / (k ^ 2 * v) = (c / v) / k) := by
  have hk0 : k ≠ 0 := ne_of_gt hk
  refine ⟨⟨?_, ?_, mul_div_assoc k c v⟩, ⟨?_, ?_, ?_⟩⟩
  · rw [scaleStock_map_stock, scaleStock_map_index, seriesCov_map_left, hc, Option.map_some']
  · rw [scaleStock_map_index, hv]
  · rw [scaleIndex_map_stock, scaleIndex_map_index, seriesCov_map_right, hc, Option.map_some']
  · rw [scaleIndex_map_index, seriesVar_map_mul, hv, Option.map_some']
  · field_simp
    ring

/-- C7 witness: the scaling law applied to the concrete pair list with k = 2. -/
theorem c7_witness :
    seriesVar ((scaleStock 2 c7pairs).map (·.dailyChange_Index)) = some (1 / 2) :=
  (c7_scaling_unrounded c7pairs 2 (1 / 500) (1 / 2) (by norm_num)
    (by norm_num [c7pairs, seriesCov, validPairs, devProdSum, mean,
      List.filterMap_cons, List.zip])
    (by norm_num [c7pairs, seriesVar, mean, List.filterMap_cons])
    (by norm_num)).1.2.1

/-- C1 counterexample: on two series sharing dates 1 and 2, the merged
output contains date 1, the earliest date of both series, whose security
return is NaN; the claim demands that this date be excluded. -/
theorem c1_counterexample :
    (align c1stock c1index).map (·.date) = [1, 2] ∧
      (align c1stock c1index).map (·.dailyChange_Stock) = [none, some 2] := by
  norm_num [align, c1stock, c1index, merge, pctChange, pctChangeGo]

/-- C4 counterexample: on the end-to-end example the AlignedPair sequence
has 4 elements, not the 3 the claim states. -/
theorem c4_counterexample : (align ex4stock ex4index).length ≠ 3 := by
  decide

/-- C4 amended: on the end-to-end example the aligned output covers all four
dates, the first row carries NaN returns, the defined security returns are
2, -50/51 and 400/101 (displayed as 2.0, -0.98, 3.96), the defined benchmark
returns are 1, -50/101 and 200/201 (displayed as 1.0, -0.495, 1.00), and
beta, computed by the sample convention over the three defined paired
returns, is 2.65. -/
theorem c4_end_to_end :
    (align ex4stock ex4index).map (·.date) = [1, 2, 3, 4] ∧
      (align ex4stock ex4index).map (·.dailyChange_Stock) =
        [none, some 2, some (-50 / 51), some (400 / 101)] ∧
      (align ex4stock ex4index).map (·.dailyChange_Index) =
        [none, some 1, some (-50 / 101), some (200 / 201)] ∧
      beta (align ex4stock ex4index) = BetaVal.val (53 / 20) := by
  have hS : (align ex4stock ex4index).map (·.dailyChange_Stock) =
      [none, some 2, some (-50 / 51), some (400 / 101)] := by
    norm_num [align, ex4stock, ex4index, merge, pctChange, pctChangeGo]
  have hI : (align ex4stock ex4index).map (·.dailyChange_Index) =
      [none, some 1, some (-50 / 101), some (200 / 201)] := by
    norm_num [align, ex4stock, ex4index, merge, pctChange, pctChangeGo]
  refine ⟨?_, hS, hI, ?_⟩
  · norm_num [align, ex4stock, ex4index, merge, pctChange, pctChangeGo]
  · have hc : seriesCov ((align ex4stock ex4index).map (·.dailyChange_Stock))
        ((align ex4stock ex4index).map (·.dailyChange_Index)) =
        some (617395577 / 313711353) := by
      rw [hS, hI]
      norm_num [seriesCov, validPairs, devProdSum, mean, List.filterMap_cons, List.zip]
    have hv : seriesVar ((align ex4stock ex4index).map (·.dailyChange_Index)) =
        some (918127951 / 1236391803) := by
      rw [hI]
      norm_num [seriesVar, mean, List.filterMap_cons]
    rw [beta_eq_val _ _ _ hc hv (by norm_num)]
    rw [round2_down _ 265 (by norm_num) (by norm_num)]
    norm_num

/-- C3 counterexample: on an empty AlignedPair sequence the variance is NaN,
NaN != 0 holds in Python, and beta evaluates to NaN, not to None as the
claim states. -/
theorem c3_counterexample : beta [] = BetaVal.nan ∧ BetaVal.nan ≠ BetaVal.null := by
  decide

/-- C5: with summary betas None and 2.0, Veta.py divides the sum of non-None
values by the total number of rows and writes 1.0 as the average, while the
mean of the non-null values (what the spec demands and what Eg.py computes)
is 2.0. -/
theorem c5_average_divisor_bug :
    vetaAverageBeta [BetaVal.null, BetaVal.val 2] = some (some 1) ∧
      egAverageBeta [BetaVal.null, BetaVal.val 2] = some 2 ∧
      vetaAverageBeta [BetaVal.null, BetaVal.null] = some (some 0) ∧
      egAverageBeta [BetaVal.null, BetaVal.null] = none := by
  norm_num [vetaAverageBeta, egAverageBeta, List.filterMap_cons]

/-- C6 counterexample: series on date 1 and on date 2 with equal closes have
disjoint date sets, the merge is empty, yet the concat-and-deduplicate
non-intersection of Veta.py is also empty because the two rows carry equal
column values, so date 1 appears in no output at all. -/
theorem c6_counterexample :
    merge (pctChange [⟨1, 5⟩]) (pctChange [⟨2, 5⟩]) = [] ∧
      vetaNonIntersection (pctChange [⟨1, 5⟩]) (pctChange [⟨2, 5⟩]) = [] ∧
      (1 : ℤ) ∈ ([⟨1, 5⟩] : List PricePoint).map (·.date) := by
  decide

/-- C7 counterexample: scaling the security returns of c7pairs by k = 10
turns the rounded beta from 0 into 1/25, which is not 10 times 0. -/
theorem c7_counterexample :
    beta c7pairs = BetaVal.val 0 ∧
      beta (scaleStock 10 c7pairs) = BetaVal.val (1 / 25) ∧
      BetaVal.val ((10 : ℚ) * 0) ≠ BetaVal.val (1 / 25) := by
  refine ⟨?_, ?_, by norm_num⟩
  · have hc : seriesCov (c7pairs.map (·.dailyChange_Stock)) (c7pairs.map (·.dailyChange_Index)) =
        some (1 / 500) := by
      norm_num [c7pairs, seriesCov, validPairs, devProdSum, mean, List.filterMap_cons, List.zip]
    have hv : seriesVar (c7pairs.map (·.dailyChange_Index)) = some (1 / 2) := by
      norm_num [c7pairs, seriesVar, mean, List.filterMap_cons]
    rw [beta_eq_val _ _ _ hc hv (by norm_num)]
    rw [round2_down _ 0 (by norm_num) (by norm_num)]
    norm_num
  · have hc : seriesCov ((scaleStock 10 c7pairs).map (·.dailyChange_Stock))
        ((scaleStock 10 c7pairs).map (·.dailyChange_Index)) = some (1 / 50) := by
      norm_num [c7pairs, scaleStock, seriesCov, validPairs, devProdSum, mean,
        List.filterMap_cons, List.zip]
    have hv : seriesVar ((scaleStock 10 c7pairs).map (·.dailyChange_Index)) = some (1 / 2) := by
      norm_num [c7pairs, scaleStock, seriesVar, mean, List.filterMap_cons]
    rw [beta_eq_val _ _ _ hc hv (by norm_num)]
    rw [round2_down _ 4 (by norm_num) (by norm_num)]
    norm_num

/-- C8 counterexample: with the stock series given in descending date order,
the merged output inherits that order and is not strictly ascending. -/
theorem c8_counterexample :
    (align [⟨2, 1⟩, ⟨1, 1⟩] [⟨1, 1⟩, ⟨2, 1⟩]).map (·.date) = [2, 1] ∧
      ¬ List.Pairwise (· < ·) ((align [⟨2, 1⟩, ⟨1, 1⟩] [⟨1, 1⟩, ⟨2, 1⟩]).map (·.date)) := by
  decide
